import Mathlib

/-!
Verification development for the stateless MCP test runner
(`direct_mcp_stateless.js` and the report generator).  The JavaScript
source is shallowly embedded: strings are Lean `String`s, JSON values a
`Json` inductive, the tool provider a pure function supplied per run,
and the per-step loop explicit state passing.  Wall-clock timestamps and
the HTML rendering are abstracted away; step durations are supplied by
the provider model.  All functions are fuel-based or structural so that
concrete runs evaluate by `rfl`/`decide` in the kernel.
-/

/-- Whitespace class of JavaScript regular expressions (`\s`) and of
`String.prototype.trim`. -/
def jsWhitespace (c : Char) : Bool :=
  c == ' ' || c == '\t' || c == '\n' || c == '\r' ||
  c.toNat == 11 || c.toNat == 12 || c.toNat == 0xa0 || c.toNat == 0x1680 ||
  (0x2000 ≤ c.toNat && c.toNat ≤ 0x200a) ||
  c.toNat == 0x2028 || c.toNat == 0x2029 || c.toNat == 0x202f ||
  c.toNat == 0x205f || c.toNat == 0x3000 || c.toNat == 0xfeff

/-- Model of `String.prototype.trim` on a character list. -/
def jsTrimL (l : List Char) : List Char :=
  ((l.dropWhile jsWhitespace).reverse.dropWhile jsWhitespace).reverse

/-- Model of `String.prototype.trim`. -/
def jsTrim (s : String) : String :=
  String.mk (jsTrimL s.data)

/-- ASCII lower-casing of one character (models `toLowerCase` and the
regex case-insensitive flag on the ASCII range that the markers of the runner use). -/
def asciiLower (c : Char) : Char :=
  if 'A' ≤ c && c ≤ 'Z' then Char.ofNat (c.toNat + 32) else c

/-- ASCII lower-casing of a string. -/
def asciiLowerStr (s : String) : String :=
  String.mk (s.data.map asciiLower)

/-- JSON values as produced by `JSON.parse`.  A number literal is kept
as a pair `(m, e)` denoting the exact value `m * 10 ^ e`, which avoids
floating point while preserving integrality tests the runner performs
(array indexing by `stepIndex - 1`). -/
inductive Json where
  | null : Json
  | bool : Bool → Json
  | num : Int → Int → Json
  | str : String → Json
  | arr : List Json → Json
  | obj : List (String × Json) → Json

/-- Property lookup on a parsed JSON object: with duplicate keys,
`JSON.parse` lets the last occurrence win. -/
def lookupLast (kvs : List (String × Json)) (k : String) : Option Json :=
  ((kvs.filter (fun p => p.1 == k)).getLast?).map (fun p => p.2)

/-- Whitespace accepted between tokens by `JSON.parse` (stricter than
the regex `\s` class). -/
def jsonWs (c : Char) : Bool :=
  c == ' ' || c == '\t' || c == '\n' || c == '\r'

/-- Skip JSON inter-token whitespace. -/
def skipWs (cs : List Char) : List Char :=
  cs.dropWhile jsonWs

/-- Value of a simple escape character inside a JSON string literal. -/
def jsonEscChar? (e : Char) : Option Char :=
  if e = Char.ofNat 34 then some (Char.ofNat 34)
  else if e = Char.ofNat 92 then some (Char.ofNat 92)
  else if e = '/' then some '/'
  else if e = 'b' then some (Char.ofNat 8)
  else if e = 'f' then some (Char.ofNat 12)
  else if e = 'n' then some (Char.ofNat 10)
  else if e = 'r' then some (Char.ofNat 13)
  else if e = 't' then some (Char.ofNat 9)
  else none

/-- Value of one hexadecimal digit. -/
def hexVal (c : Char) : Option Nat :=
  if c.isDigit then some (c.toNat - 48)
  else if 'a' ≤ c && c ≤ 'f' then some (c.toNat - 87)
  else if 'A' ≤ c && c ≤ 'F' then some (c.toNat - 55)
  else none

/-- Parse the body of a JSON string literal (the opening quote already
consumed); returns the decoded characters and the rest of the input. -/
def parseJStringAux : List Char → Option (List Char × List Char)
  | [] => none
  | c :: rest =>
    if c = Char.ofNat 34 then some ([], rest)
    else if c = Char.ofNat 92 then
      match rest with
      | 'u' :: h1 :: h2 :: h3 :: h4 :: rest2 =>
        match hexVal h1, hexVal h2, hexVal h3, hexVal h4 with
        | some a, some b, some c3, some d =>
          (parseJStringAux rest2).map
            (fun p => (Char.ofNat (((a * 16 + b) * 16 + c3) * 16 + d) :: p.1, p.2))
        | _, _, _, _ => none
      | e :: rest2 =>
        match jsonEscChar? e with
        | some ec => (parseJStringAux rest2).map (fun p => (ec :: p.1, p.2))
        | none => none
      | [] => none
    else if c.toNat < 32 then none
    else (parseJStringAux rest).map (fun p => (c :: p.1, p.2))

/-- Digits to a natural number. -/
def digitsToNat (ds : List Char) : Nat :=
  ds.foldl (fun a c => a * 10 + (c.toNat - 48)) 0

/-- Parse a JSON number literal, returning it as `Json.num m e`
(value `m * 10 ^ e`) together with the rest of the input. -/
def parseJNumber (cs : List Char) : Option (Json × List Char) :=
  let sgn : Bool × List Char := match cs with
    | '-' :: r => (true, r)
    | _ => (false, cs)
  let neg := sgn.1
  let cs1 := sgn.2
  let d1 := cs1.takeWhile Char.isDigit
  let cs2 := cs1.dropWhile Char.isDigit
  if d1.isEmpty then none
  else if d1.length > 1 && d1.head? == some '0' then none
  else
    let fracRes : Option (List Char × List Char) := match cs2 with
      | '.' :: r =>
        let f := r.takeWhile Char.isDigit
        if f.isEmpty then none else some (f, r.dropWhile Char.isDigit)
      | _ => some ([], cs2)
    match fracRes with
    | none => none
    | some (frac, cs3) =>
      let expRes : Option (Int × List Char) := match cs3 with
        | e :: r =>
          if e = 'e' || e = 'E' then
            let se : Int × List Char := match r with
              | '+' :: rr => (1, rr)
              | '-' :: rr => (-1, rr)
              | _ => (1, r)
            let ed := se.2.takeWhile Char.isDigit
            if ed.isEmpty then none
            else some (se.1 * (digitsToNat ed : Int), se.2.dropWhile Char.isDigit)
          else some (0, cs3)
        | [] => some (0, cs3)
      match expRes with
      | none => none
      | some (ex, cs4) =>
        let mNat := digitsToNat (d1 ++ frac)
        let m : Int := if neg then -(mNat : Int) else (mNat : Int)
        some (Json.num m (ex - frac.length), cs4)

/-- One fuel level of the recursive-descent JSON parser: parsers for a
value, for array elements after `[`, and for object members after the
opening brace. -/
structure JParsers where
  val : List Char → Option (Json × List Char)
  arrElems : List Char → Option (List Json × List Char)
  objMems : List Char → Option (List (String × Json) × List Char)

/-- Fuel-exhausted parser level. -/
def jFail : JParsers :=
  ⟨fun _ => none, fun _ => none, fun _ => none⟩

/-- Build the next parser level from the previous one; all recursive
calls go through the previous level, so the whole parser is a plain
structural recursion on fuel and reduces in the kernel. -/
def jStep (p : JParsers) : JParsers where
  val cs :=
    let cs := skipWs cs
    match cs with
    | [] => none
    | 'n' :: r =>
      match r with
      | 'u' :: 'l' :: 'l' :: r2 => some (Json.null, r2)
      | _ => none
    | 't' :: r =>
      match r with
      | 'r' :: 'u' :: 'e' :: r2 => some (Json.bool true, r2)
      | _ => none
    | 'f' :: r =>
      match r with
      | 'a' :: 'l' :: 's' :: 'e' :: r2 => some (Json.bool false, r2)
      | _ => none
    | c :: r =>
      if c = Char.ofNat 34 then
        (parseJStringAux r).map (fun q => (Json.str (String.mk q.1), q.2))
      else if c = '[' then
        match skipWs r with
        | ']' :: r2 => some (Json.arr [], r2)
        | _ => (p.arrElems r).map (fun q => (Json.arr q.1, q.2))
      else if c = Char.ofNat 123 then
        match skipWs r with
        | c2 :: r2 =>
          if c2 = Char.ofNat 125 then some (Json.obj [], r2)
          else (p.objMems r).map (fun q => (Json.obj q.1, q.2))
        | [] => none
      else if c = '-' || c.isDigit then parseJNumber cs
      else none
  arrElems cs :=
    match p.val cs with
    | none => none
    | some (v, r) =>
      match skipWs r with
      | ',' :: r2 => (p.arrElems r2).map (fun q => (v :: q.1, q.2))
      | ']' :: r2 => some ([v], r2)
      | _ => none
  objMems cs :=
    match skipWs cs with
    | c :: r =>
      if c = Char.ofNat 34 then
        match parseJStringAux r with
        | none => none
        | some (k, r1) =>
          match skipWs r1 with
          | ':' :: r2 =>
            match p.val r2 with
            | none => none
            | some (v, r3) =>
              match skipWs r3 with
              | ',' :: r4 =>
                (p.objMems r4).map (fun q => ((String.mk k, v) :: q.1, q.2))
              | c4 :: r4 =>
                if c4 = Char.ofNat 125 then some ([(String.mk k, v)], r4) else none
              | [] => none
          | _ => none
      else none
    | [] => none

/-- The parser at a given fuel level. -/
def jRun : Nat → JParsers
  | 0 => jFail
  | n + 1 => jStep (jRun n)

/-- Model of `JSON.parse`: parse one value with generous fuel and
require only trailing whitespace afterwards.  `none` models a thrown
`SyntaxError`. -/
def parseJsonText (s : String) : Option Json :=
  let cs := s.data
  match (jRun (2 * cs.length + 16)).val cs with
  | some (v, rest) => if skipWs rest = [] then some v else none
  | none => none

/-- One content block of an MCP tool response
(`ContentBlock = \x7btype, text?\x7d`); `text = none` models an absent or
non-string `text` property. -/
structure ContentBlock where
  type : String
  text : Option String

/-- An MCP tool response: `\x7bcontent: list<ContentBlock>, isError: bool\x7d`. -/
structure MCPResult where
  content : List ContentBlock
  isError : Bool

/-- JSON string escaping of one character as performed by
`JSON.stringify`. -/
def jsonEscapeChar (c : Char) : List Char :=
  if c = Char.ofNat 34 then [Char.ofNat 92, Char.ofNat 34]
  else if c = Char.ofNat 92 then [Char.ofNat 92, Char.ofNat 92]
  else if c = Char.ofNat 10 then [Char.ofNat 92, 'n']
  else if c = Char.ofNat 13 then [Char.ofNat 92, 'r']
  else if c = Char.ofNat 9 then [Char.ofNat 92, 't']
  else if c = Char.ofNat 8 then [Char.ofNat 92, 'b']
  else if c = Char.ofNat 12 then [Char.ofNat 92, 'f']
  else if c.toNat < 32 then
    [Char.ofNat 92, 'u', '0', '0',
     (if c.toNat / 16 < 10 then Char.ofNat (48 + c.toNat / 16) else Char.ofNat (87 + c.toNat / 16)),
     (if c.toNat % 16 < 10 then Char.ofNat (48 + c.toNat % 16) else Char.ofNat (87 + c.toNat % 16))]
  else [c]

/-- JSON string escaping of a character list. -/
def jsonEscapeL (l : List Char) : List Char :=
  l.flatMap jsonEscapeChar

/-- A quoted JSON string literal for `s`, as a character list. -/
def jsonQuoteL (s : String) : List Char :=
  Char.ofNat 34 :: jsonEscapeL s.data ++ [Char.ofNat 34]

/-- Model of `JSON.stringify` on one content block (property order
`type` then `text`; an absent `text` is skipped, as `JSON.stringify`
skips `undefined` properties). -/
def blockStringifyL (b : ContentBlock) : List Char :=
  Char.ofNat 123 ::
    ("\x22type\x22:".data ++ jsonQuoteL b.type ++
      (match b.text with
        | some t => ",\x22text\x22:".data ++ jsonQuoteL t
        | none => []) ++ [Char.ofNat 125])

/-- Model of `JSON.stringify(result.content)` as a character list. -/
def jsContentStringifyL (content : List ContentBlock) : List Char :=
  '[' :: List.intercalate ",".data (content.map blockStringifyL) ++ [']']

/-- Model of `JSON.stringify(result.content)` as a string. -/
def jsContentStringify (content : List ContentBlock) : String :=
  String.mk (jsContentStringifyL content)

/-- Character class of the screenshot filename regex: any character that
is neither whitespace nor a double quote, single quote, or
parenthesis. -/
def screenshotClassChar (c : Char) : Bool :=
  !(jsWhitespace c) && c != Char.ofNat 34 && c != Char.ofNat 39 &&
    c != '(' && c != ')'

/-- Match the extension alternation `(png|jpg|jpeg)` (case-insensitive,
alternatives tried in source order) at the head of `cs`; returns the
number of characters matched. -/
def extMatch (cs : List Char) : Option Nat :=
  match (cs.take 4).map asciiLower with
  | 'p' :: 'n' :: 'g' :: _ => some 3
  | 'j' :: 'p' :: 'g' :: _ => some 3
  | 'j' :: 'p' :: 'e' :: 'g' :: _ => some 4
  | _ => none

/-- Backtracking body of the lazy quantifier of the screenshot filename
regex (one or more class characters, lazily, then a dot and the
extension): `acc` holds the (reversed) class characters consumed so far
(at least one), and at each step the engine first tries to match the
dot plus the extension, then falls back to consuming one more class
character. -/
def lazyScan (acc : List Char) : List Char → Option (List Char × List Char)
  | '.' :: rs =>
    match extMatch rs with
    | some n => some (acc.reverse ++ '.' :: rs.take n, rs.drop n)
    | none =>
      if screenshotClassChar '.' then lazyScan ('.' :: acc) rs else none
  | c :: rs =>
    if screenshotClassChar c then lazyScan (c :: acc) rs else none
  | [] => none

/-- Try to match the screenshot-filename regex starting exactly at the
head of `cs`; returns the matched text and the rest of the input. -/
def scanStart (cs : List Char) : Option (List Char × List Char) :=
  match cs with
  | c :: rs => if screenshotClassChar c then lazyScan [c] rs else none
  | [] => none

/-- Global regex scan (`/g` flag): find successive non-overlapping
matches left to right, resuming after each match; fuel bounds the scan
by the input length. -/
def scanAllF : Nat → List Char → List (List Char)
  | 0, _ => []
  | _ + 1, [] => []
  | f + 1, c :: rest =>
    match scanStart (c :: rest) with
    | some (m, after) => m :: scanAllF f after
    | none => scanAllF f rest

/-- All matches of the screenshot filename regex in a text. -/
def scanAll (cs : List Char) : List (List Char) :=
  scanAllF cs.length cs

/-- The configured screenshots directory
(`config.reporting.screenshotsDir`). -/
def screenshotsDir : String := "mcp-workspace/test-screenshots"

/-- Model of `path.basename` (POSIX): the part after the last `/`. -/
def jsBasename (s : String) : String :=
  String.mk ((s.data.reverse.takeWhile (fun c => c != '/')).reverse)

/-- Concatenation of all text-typed content blocks carrying a string,
joined with newlines, as in `extractScreenshotPath`. -/
def fullTextOf (content : List ContentBlock) : String :=
  String.intercalate "\n"
    ((content.filter (fun c => c.type == "text" && c.text.isSome)).map
      (fun c => c.text.getD ""))

/-- `extractScreenshotPath`: join all text output, scan for image
filenames, and return the screenshots-directory path of the basename of
the last match, or `none`. -/
def extractScreenshotPath (result : MCPResult) : Option String :=
  let fullText := fullTextOf result.content
  if fullText = "" then none
  else
    match (scanAll fullText.data).getLast? with
    | none => none
    | some m => some (screenshotsDir ++ "/" ++ jsBasename (String.mk m))

/-- The literal `### Result` of the marker regex, lower-cased for the
case-insensitive comparison. -/
def resultLit : List Char := "### result".data

/-- Decide whether `pat` is a prefix of `cs` up to ASCII case. -/
def litMatch (pat cs : List Char) : Bool :=
  match pat, cs with
  | [], _ => true
  | _ :: _, [] => false
  | p :: ps, c :: rest => (asciiLower c == p) && litMatch ps rest

/-- Largest `k < w` such that the `k`-th remaining character is not a
newline (backtracking of the greedy `\s+` when the input ends inside
the whitespace run). -/
def bestBacktrack (rest : List Char) : Nat → Option Nat
  | 0 => none
  | k + 1 =>
    match rest.drop (k + 1) with
    | c :: _ => if c != Char.ofNat 10 then some (k + 1) else bestBacktrack rest k
    | [] => bestBacktrack rest k

/-- Capture group of `/### Result\s+([^\n]+)/i` when the literal has
just been matched and `rest` is the input that follows: the greedy
`\s+` takes the maximal whitespace run `w`, then `([^\n]+)` takes the
maximal non-newline run; when the input ends inside the whitespace run
the engine backtracks `\s+` until the capture is non-empty. -/
def captureAfter (rest : List Char) : Option (List Char) :=
  let w := (rest.takeWhile jsWhitespace).length
  if w = 0 then none
  else
    match rest.drop w with
    | _ :: _ => some ((rest.drop w).takeWhile (fun c => c != Char.ofNat 10))
    | [] =>
      match bestBacktrack rest (w - 1) with
      | some k => some ((rest.drop k).takeWhile (fun c => c != Char.ofNat 10))
      | none => none

/-- First match of `/### Result\s+([^\n]+)/i` in a text: the regex
engine tries each start position left to right. -/
def resultSearch : List Char → Option (List Char)
  | [] => none
  | c :: rest =>
    if litMatch resultLit (c :: rest) then
      match captureAfter ((c :: rest).drop resultLit.length) with
      | some cap => some cap
      | none => resultSearch rest
    else resultSearch rest

/-- A thrown per-step error: its message and the `duration` property the
runner attaches before throwing. -/
structure StepErr where
  msg : String
  duration : Nat

/-- Model of `executeMCP`: outcome classification (the provider call itself and
timing are supplied by the caller): a protocol error envelope throws
`MCP Tool Error` with the stringified payload; otherwise the FIRST
text-typed content block is searched for the `### Result` marker and a
(case-insensitive) `false` value throws `MCP Tool returned false`. -/
def executeMCP (result : MCPResult) (duration : Nat) : Except StepErr Unit :=
  if result.isError then
    .error ⟨"MCP Tool Error: " ++ jsContentStringify result.content, duration⟩
  else
    match (result.content.find? (fun c => c.type == "text")).bind (fun c => c.text) with
    | some textBlock =>
      if textBlock = "" then .ok ()
      else
        match resultSearch textBlock.data with
        | some cap =>
          if asciiLowerStr (jsTrim (String.mk cap)) = "false" then
            .error ⟨"MCP Tool returned false", duration⟩
          else .ok ()
        | none => .ok ()
    | none => .ok ()

/-- One recorded action (`recordAction` payload).  `assertion` stores
the JavaScript value of `assertion || null` (a falsy value becomes
null, i.e. `none`); `error` and `screenshot` store `x || null`
likewise.  The wall-clock `timestamp` field is abstracted away. -/
structure ActionRecord where
  tool : String
  params : Option Json
  status : String
  assertion : Option Json
  error : Option String
  duration : Nat
  screenshot : Option String

/-- Mutable per-run recorder state (`this.testResults` plus the
invocation trace of `mcpClient.callTool`, which the embedding makes
explicit). -/
structure RunState where
  invoked : List (String × Option Json)
  actions : List ActionRecord
  passed : Nat
  failed : Nat

/-- Coercion `x || null` for an optional string (the empty string is
falsy). -/
def jsStrOrNull (o : Option String) : Option String :=
  match o with
  | some s => if s = "" then none else some s
  | none => none

/-- JavaScript truthiness of a possibly-undefined JSON value. -/
def jsTruthy : Option Json → Bool
  | none => false
  | some .null => false
  | some (.bool b) => b
  | some (.num m _) => m != 0
  | some (.str s) => s != ""
  | some (.arr _) => true
  | some (.obj _) => true

/-- Model of `recordAction`: push one immutable record and bump one
counter. -/
def recordAction (st : RunState) (tool : String) (params : Option Json)
    (status : String) (assertion : Option Json) (error : Option String)
    (duration : Nat) (screenshot : Option String) : RunState :=
  { st with
    actions := st.actions ++
      [⟨tool, params, status,
        (if jsTruthy assertion then assertion else none),
        jsStrOrNull error, duration, jsStrOrNull screenshot⟩],
    passed := st.passed + (if status = "passed" then 1 else 0),
    failed := st.failed + (if status = "failed" then 1 else 0) }

/-- Property access `step.f` on a non-null JSON value (`none` models
`undefined`). -/
def jsField (j : Json) (k : String) : Option Json :=
  match j with
  | .obj kvs => lookupLast kvs k
  | _ => none

/-- Element access `plan[i]` for the loop index `i`. -/
def jsIndex (plan : Json) (i : Nat) : Option Json :=
  match plan with
  | .arr xs => xs[i]?
  | .str s => (s.data[i]?).map (fun c => Json.str (String.mk [c]))
  | .obj kvs => lookupLast kvs (toString i)
  | _ => none

/-- The exact integer denoted by `Json.num m e`, if it is one. -/
def numToInt? (m e : Int) : Option Int :=
  if e ≥ 0 then some (m * (10 : Int) ^ e.toNat)
  else if m % ((10 : Int) ^ (-e).toNat) = 0 then some (m / ((10 : Int) ^ (-e).toNat))
  else none

/-- Coercion `Number(s)` for a trimmed numeric string, as the pair `(m, e)`.
Modeled for the decimal grammar the runner can meet (hexadecimal and
`Infinity` inputs are out of the embedded corner). -/
def jsStrToNum? (s : String) : Option (Int × Int) :=
  let t := jsTrimL s.data
  if t.isEmpty then some (0, 0)
  else
    let t2 := match t with
      | '+' :: r => r
      | _ => t
    match parseJNumber t2 with
    | some (Json.num m e, []) => some (m, e)
    | _ => none

/-- Value of `step.stepIndex - 1` as an exact integer when that JavaScript
subtraction yields an integral number (otherwise array indexing gives
`undefined`). -/
def stepIndexMinusOne? (v : Option Json) : Option Int :=
  match v with
  | some (.num m e) => (numToInt? m e).map (fun k => k - 1)
  | some (.bool b) => some ((if b then 1 else 0) - 1)
  | some .null => some (-1)
  | some (.str s) =>
    match jsStrToNum? s with
    | some (m, e) => (numToInt? m e).map (fun k => k - 1)
    | none => none
  | some (.arr _) => none
  | some (.obj _) => none
  | none => none

/-- Lookup `testSteps[step.stepIndex - 1] || testSteps[i]`: the first lookup
when its index is an in-range integer, falling back to the loop-index
entry when the result is undefined or falsy (an empty string). -/
def originalStepLookup (testSteps : List String) (stepIndexVal : Option Json)
    (i : Nat) : Option String :=
  let first : Option String :=
    match stepIndexMinusOne? stepIndexVal with
    | some k => if k ≥ 0 then testSteps[k.toNat]? else none
    | none => none
  match first with
  | some s => if s = "" then testSteps[i]? else some s
  | none => testSteps[i]?

/-- Ceiling of `m * 10 ^ e` clamped to a natural number (the number of
iterations of `for (i = 0; i < bound; i++)` for a numeric bound). -/
def numCeilNat (m e : Int) : Nat :=
  if e ≥ 0 then (m * (10 : Int) ^ e.toNat).toNat
  else (-(Int.ediv (-m) ((10 : Int) ^ (-e).toNat))).toNat

/-- Iteration count of the loop when its bound is the JSON value `j`
(`i < j` with JavaScript numeric coercion; the object/array coercion
corners that cannot arise from plans of this runner are approximated by
zero iterations). -/
def boundOfJson (j : Json) : Nat :=
  match j with
  | .num m e => numCeilNat m e
  | .bool b => if b then 1 else 0
  | .null => 0
  | .str s =>
    match jsStrToNum? s with
    | some (m, e) => numCeilNat m e
    | none => 0
  | .arr _ => 0
  | .obj _ => 0

/-- Loop bound `executionPlan.length`.  `Json.null` never reaches
this point: accessing `.length` on it already threw inside
the try block of `generateExecutionPlan`. -/
def loopBound (plan : Json) : Nat :=
  match plan with
  | .arr xs => xs.length
  | .str s => s.data.length
  | .obj kvs =>
    match lookupLast kvs "length" with
    | some j => boundOfJson j
    | none => 0
  | _ => 0

/-- Model of `step.tool.replace(/^mcp_/, '')`. -/
def stripMcp (t : String) : String :=
  if "mcp_".data.isPrefixOf t.data then String.mk (t.data.drop 4) else t

/-- The body of one iteration of the execution loop (`runTest` lines
464-500).  A `.error` is an uncaught `TypeError` thrown outside the
per-step `try` (crashing the whole run); `.ok` is the updated state
after exactly one `recordAction`. -/
def stepBody (testSteps : List String)
    (provider : String → Option Json → MCPResult × Nat)
    (plan : Json) (i : Nat) (st : RunState) : Except String RunState :=
  match jsIndex plan i with
  | none => .error "TypeError: cannot read stepIndex of undefined"
  | some Json.null => .error "TypeError: cannot read stepIndex of null"
  | some step =>
    match originalStepLookup testSteps (jsField step "stepIndex") i with
    | none => .error "TypeError: originalStep is undefined"
    | some _ =>
      match jsField step "tool" with
      | none => .error "TypeError: cannot read replace of undefined"
      | some (Json.str t) =>
        let toolName := stripMcp t
        let params := jsField step "params"
        let call := provider toolName params
        let st1 := { st with invoked := st.invoked ++ [(toolName, params)] }
        let assertionVal := jsField step "isAssertion"
        match executeMCP call.1 call.2 with
        | .ok _ =>
          .ok (recordAction st1 ("mcp_" ++ t) params "passed" assertionVal
                none call.2 (extractScreenshotPath call.1))
        | .error e =>
          .ok (recordAction st1 ("mcp_" ++ t) params "failed" assertionVal
                (some e.msg) e.duration none)
      | some _ => .error "TypeError: step.tool.replace is not a function"

/-- The execution loop: `n` remaining iterations starting at index `i`.
A crash aborts with the state accumulated so far. -/
def runLoop (testSteps : List String)
    (provider : String → Option Json → MCPResult × Nat)
    (plan : Json) : Nat → Nat → RunState → Except (RunState × String) RunState
  | 0, _, st => .ok st
  | n + 1, i, st =>
    match stepBody testSteps provider plan i st with
    | .error msg => .error (st, msg)
    | .ok st' => runLoop testSteps provider plan n (i + 1) st'

/-- The finalized test report (`this.testReport` after the loop, with
the recomputation of `generateReport` applied; wall-clock times
omitted). -/
structure TestReport where
  testName : String
  testText : String
  actions : List ActionRecord
  passedActions : Nat
  failedActions : Nat
  totalActions : Nat
  testResult : String

/-- Report finalization (`runTest` lines 503-509 and `generateReport`
line 492): copy counters and set `testResult = pass` iff no failures. -/
def finalize (testName testText : String) (st : RunState) : TestReport :=
  ⟨testName, testText, st.actions, st.passed, st.failed, st.actions.length,
    if st.failed = 0 then "pass" else "fail"⟩

/-- Outcome of one `runTest` call: a fatal plan error before any
action, an uncaught mid-loop `TypeError` (no report), or a finalized
report.  Each carries the provider-invocation trace. -/
inductive RunResult where
  | planError : String → RunResult
  | crashed : List (String × Option Json) → List ActionRecord → RunResult
  | finished : List (String × Option Json) → TestReport → RunResult

/-- Model of `split('\n')`: cut a character list at every newline, keeping empty
pieces, like the JavaScript split with a plain separator. -/
def splitNlF (acc : List Char) : List Char → List String
  | [] => [String.mk acc.reverse]
  | c :: rest =>
    if c = Char.ofNat 10 then String.mk acc.reverse :: splitNlF [] rest
    else splitNlF (c :: acc) rest

/-- The dash-prefixed step lines of the test text
(`testText.split('\n').filter(l => l.trim().startsWith('-'))`). -/
def stepsOf (testText : String) : List String :=
  (splitNlF [] testText.data).filter (fun l => (jsTrimL l.data).head? == some '-')

/-- Remove every occurrence of `pat`, each together with one directly
following newline (one global `replace(/pat\n?/g, '')` pass). -/
def removeFenceF (pat : List Char) : Nat → List Char → List Char
  | 0, cs => cs
  | _ + 1, [] => []
  | f + 1, c :: rest =>
    if pat.isPrefixOf (c :: rest) then
      let after := (c :: rest).drop pat.length
      match after with
      | '\n' :: after2 => removeFenceF pat f after2
      | _ => removeFenceF pat f after
    else c :: removeFenceF pat f rest

/-- Fence stripping of the raw plan text:
`replace(/```json\n?/g, '').replace(/```\n?/g, '').trim()`. -/
def stripPlanFences (s : String) : String :=
  let l1 := removeFenceF "```json".data s.data.length s.data
  let l2 := removeFenceF "```".data l1.length l1
  String.mk (jsTrimL l2)

/-- Model of `generateExecutionPlan` after the LLM call: strip fences, parse the
JSON, and log the step count.  A `SyntaxError` from `JSON.parse`, or
the `TypeError` thrown by `plan.length` when the plan is `null`, is
caught and rethrown as `Invalid plan JSON`.  No further shape or
tool-name validation is performed. -/
def generateExecutionPlan (planText : String) : Except String Json :=
  match parseJsonText (stripPlanFences planText) with
  | none => .error "Invalid plan JSON: syntax error"
  | some Json.null =>
    .error "Invalid plan JSON: Cannot read properties of null (reading length)"
  | some v => .ok v

/-- Execute a validated plan: run the loop over `plan.length` entries
and finalize the report, or surface a crash. -/
def execPlan (testName testText : String)
    (provider : String → Option Json → MCPResult × Nat)
    (plan : Json) : RunResult :=
  let testSteps := stepsOf testText
  match runLoop testSteps provider plan (loopBound plan) 0 ⟨[], [], 0, 0⟩ with
  | .error (st, _) => .crashed st.invoked st.actions
  | .ok st => .finished st.invoked (finalize testName testText st)

/-- Model of `runTest`: plan generation (the reply text of the LLM is an input of the
model), then sequential execution and report finalization. -/
def runTest (testName testText planText : String)
    (provider : String → Option Json → MCPResult × Nat) : RunResult :=
  match generateExecutionPlan planText with
  | .error msg => .planError msg
  | .ok plan => execPlan testName testText provider plan

/-- The action records a run produced. -/
def actionsOf : RunResult → List ActionRecord
  | .planError _ => []
  | .crashed _ acts => acts
  | .finished _ rep => rep.actions

/-- The provider invocations a run performed. -/
def invokedOf : RunResult → List (String × Option Json)
  | .planError _ => []
  | .crashed inv _ => inv
  | .finished inv _ => inv

/-- The condition the code actually tests before throwing
`MCP Tool returned false`: the FIRST text-typed content block carries a
non-empty string whose first `### Result` marker has the
(case-insensitive) value `false`. -/
def firstBlockMarkerFalse (content : List ContentBlock) : Bool :=
  match (content.find? (fun c => c.type == "text")).bind (fun c => c.text) with
  | some t =>
    if t = "" then false
    else
      match resultSearch t.data with
      | some cap => asciiLowerStr (jsTrim (String.mk cap)) == "false"
      | none => false
  | none => false

/-- Does the text contain, at any position, a `### Result` marker whose
value is (case-insensitively) `false`? -/
def anyMarkerFalse : List Char → Bool
  | [] => false
  | c :: rest =>
    (litMatch resultLit (c :: rest) &&
      (match captureAfter ((c :: rest).drop resultLit.length) with
        | some cap => asciiLowerStr (jsTrim (String.mk cap)) == "false"
        | none => false)) ||
    anyMarkerFalse rest

/-- Modelled from the words of the spec, for comparison with the code (claim
C2): the concatenation of ALL textual content blocks contains a marker
line `### Result <value>` whose value, case-insensitively, is
`false`. -/
def specConcatMarkerFalse (content : List ContentBlock) : Bool :=
  anyMarkerFalse (fullTextOf content).data

/-- Shape invariant of every record `recordAction` can create through
the execution loop. -/
def recordOk (rec : ActionRecord) : Prop :=
  (rec.status = "passed" ∨ rec.status = "failed") ∧
  (rec.status = "failed" → rec.screenshot = none) ∧
  (rec.assertion = none ∨ jsTruthy rec.assertion = true) ∧
  (∀ e, rec.error = some e → e ≠ "") ∧
  (∀ p, rec.screenshot = some p → p ≠ "")

/-- Test text with exactly one dash-prefixed step line. -/
def testTextA : String := "steps:\n- click the button"

/-- A well-formed single-step plan text for the catalogued tool
`browser_click`. -/
def planTextSingle : String :=
  "[\x7b\"stepIndex\":1,\"tool\":\"browser_click\",\"params\":\x7b\x7d,\"isAssertion\":false\x7d]"

/-- The parsed step of `planTextSingle`. -/
def planStep1 : Json :=
  Json.obj [("stepIndex", Json.num 1 0), ("tool", Json.str "browser_click"),
            ("params", Json.obj []), ("isAssertion", Json.bool false)]

/-- A single-step plan text whose tool name appears in no discovered
catalog. -/
def planTextBogus : String :=
  "[\x7b\"stepIndex\":1,\"tool\":\"bogus_tool\",\"params\":\x7b\x7d,\"isAssertion\":false\x7d]"

/-- A two-step plan against a one-line test text: step 2 has no
`stepIndex`, so neither `testSteps[stepIndex - 1]` nor `testSteps[1]`
exists. -/
def planTextMismatch : String :=
  "[\x7b\"stepIndex\":1,\"tool\":\"browser_click\",\"params\":\x7b\x7d\x7d,\x7b\"tool\":\"browser_snapshot\"\x7d]"

/-- Plan text that is valid JSON but not an array. -/
def planTextObj : String := "\x7b\x7d"

/-- A tool catalog as discovered from the provider (`this.mcpTools`
keys); the runner stores it but never validates plan steps against
it. -/
def exampleCatalog : List String :=
  ["browser_navigate", "browser_click", "browser_snapshot"]

/-- Provider stub: every call succeeds with plain text output. -/
def providerOkPlain : String → Option Json → MCPResult × Nat :=
  fun _ _ => (⟨[⟨"text", some "Done"⟩], false⟩, 3)

/-- Provider stub: protocol error whose text claims `### Result true`. -/
def providerErrTrue : String → Option Json → MCPResult × Nat :=
  fun _ _ => (⟨[⟨"text", some "### Result true"⟩], true⟩, 7)

/-- Provider stub: protocol success whose SECOND text block carries
`### Result` followed by a newline and `false`. -/
def providerDual : String → Option Json → MCPResult × Nat :=
  fun _ _ => (⟨[⟨"text", some "hello"⟩, ⟨"text", some "### Result\nfalse"⟩], false⟩, 4)

/-- Provider stub: protocol error whose text mentions an image
filename. -/
def providerShotFail : String → Option Json → MCPResult × Nat :=
  fun _ _ => (⟨[⟨"text", some "see shot1.png here"⟩], true⟩, 2)

/-- The record a one-step passing run against `providerOkPlain`
produces. -/
def recPassedPlain : ActionRecord :=
  ⟨"mcp_browser_click", some (Json.obj []), "passed", none, none, 3, none⟩

/-- The record a one-step run against `providerShotFail` produces. -/
def recFailedShot : ActionRecord :=
  ⟨"mcp_browser_click", some (Json.obj []), "failed", none,
    some "MCP Tool Error: [\x7b\"type\":\"text\",\"text\":\"see shot1.png here\"\x7d]", 2, none⟩

/-- An error payload carrying 600 characters of text. -/
def bigBlocks : List ContentBlock :=
  [⟨"text", some (String.mk (List.replicate 600 'a'))⟩]

theorem runLoop_one (ts : List String) (prov : String → Option Json → MCPResult × Nat)
    (plan : Json) (i : Nat) (st : RunState) :
    runLoop ts prov plan 1 i st =
      match stepBody ts prov plan i st with
      | .error msg => .error (st, msg)
      | .ok st' => .ok st' := by
  cases hsb : stepBody ts prov plan i st <;> simp [runLoop, hsb]

theorem stepBody_plan1 (prov : String → Option Json → MCPResult × Nat) (st : RunState) :
    stepBody ["- click the button"] prov (Json.arr [planStep1]) 0 st =
      match executeMCP (prov "browser_click" (some (Json.obj []))).1
              (prov "browser_click" (some (Json.obj []))).2 with
      | .ok _ =>
        .ok (recordAction
              { st with invoked := st.invoked ++ [("browser_click", some (Json.obj []))] }
              "mcp_browser_click" (some (Json.obj [])) "passed" (some (Json.bool false))
              none (prov "browser_click" (some (Json.obj []))).2
              (extractScreenshotPath (prov "browser_click" (some (Json.obj []))).1))
      | .error e =>
        .ok (recordAction
              { st with invoked := st.invoked ++ [("browser_click", some (Json.obj []))] }
              "mcp_browser_click" (some (Json.obj [])) "failed" (some (Json.bool false))
              (some e.msg) e.duration none) := rfl

theorem execPlan_one (name tt : String) (prov : String → Option Json → MCPResult × Nat)
    (plan : Json) (h : loopBound plan = 1) :
    execPlan name tt prov plan =
      match stepBody (stepsOf tt) prov plan 0 ⟨[], [], 0, 0⟩ with
      | .error _ => .crashed [] []
      | .ok st' => .finished st'.invoked (finalize name tt st') := by
  unfold execPlan
  rw [h]
  simp only [runLoop_one]
  cases hsb : stepBody (stepsOf tt) prov plan 0 ⟨[], [], 0, 0⟩ <;> simp [hsb]

theorem runSingle_eq (prov : String → Option Json → MCPResult × Nat) :
    runTest "t" testTextA planTextSingle prov =
      match executeMCP (prov "browser_click" (some (Json.obj []))).1
              (prov "browser_click" (some (Json.obj []))).2 with
      | .ok _ =>
        .finished [("browser_click", some (Json.obj []))]
          ⟨"t", testTextA,
            [⟨"mcp_browser_click", some (Json.obj []), "passed", none, none,
              (prov "browser_click" (some (Json.obj []))).2,
              jsStrOrNull (extractScreenshotPath (prov "browser_click" (some (Json.obj []))).1)⟩],
            1, 0, 1, "pass"⟩
      | .error e =>
        .finished [("browser_click", some (Json.obj []))]
          ⟨"t", testTextA,
            [⟨"mcp_browser_click", some (Json.obj []), "failed", none,
              jsStrOrNull (some e.msg), e.duration, none⟩],
            0, 1, 1, "fail"⟩ := by
  have hg : generateExecutionPlan planTextSingle = .ok (Json.arr [planStep1]) := rfl
  unfold runTest
  rw [hg]
  show execPlan "t" testTextA prov (Json.arr [planStep1]) = _
  rw [execPlan_one _ _ _ _ (rfl : loopBound (Json.arr [planStep1]) = 1)]
  rw [show stepsOf testTextA = ["- click the button"] from rfl]
  rw [stepBody_plan1]
  cases hx : executeMCP (prov "browser_click" (some (Json.obj []))).1
      (prov "browser_click" (some (Json.obj []))).2 <;>
    simp [recordAction, finalize, jsTruthy, jsStrOrNull]

theorem executeMCP_not_isError (content : List ContentBlock) (d : Nat) :
    executeMCP ⟨content, false⟩ d =
      if firstBlockMarkerFalse content then .error ⟨"MCP Tool returned false", d⟩
      else .ok () := by
  unfold executeMCP firstBlockMarkerFalse
  cases hf : (content.find? (fun c => c.type == "text")).bind (fun c => c.text) with
  | none => simp
  | some t =>
    by_cases ht : t = ""
    · simp [ht]
    · simp only [ht, if_false]
      cases hr : resultSearch t.data with
      | none => simp
      | some cap =>
        by_cases hv : asciiLowerStr (jsTrim (String.mk cap)) = "false" <;> simp [hv]

theorem jsStrOrNull_ne (o : Option String) (e : String) (h : jsStrOrNull o = some e) :
    e ≠ "" := by
  unfold jsStrOrNull at h
  cases o with
  | none => simp at h
  | some s =>
    by_cases hs : s = ""
    · simp [hs] at h
    · simp [hs] at h
      exact h ▸ hs

theorem recordOk_mk (tool : String) (params : Option Json) (status : String)
    (a : Option Json) (e : Option String) (d : Nat) (sh : Option String)
    (hs : status = "passed" ∨ status = "failed") (hsh : status = "failed" → sh = none) :
    recordOk ⟨tool, params, status, (if jsTruthy a then a else none),
      jsStrOrNull e, d, jsStrOrNull sh⟩ := by
  refine ⟨hs, ?_, ?_, ?_, ?_⟩
  · intro hfail
    rw [hsh hfail]
    rfl
  · by_cases ha : jsTruthy a
    · right
      simp [ha]
    · left
      simp [ha]
  · intro e' he'
    exact jsStrOrNull_ne e e' he'
  · intro p hp
    exact jsStrOrNull_ne sh p hp

theorem stepBody_ok {ts : List String} {prov : String → Option Json → MCPResult × Nat}
    {plan : Json} {i : Nat} {st st' : RunState}
    (h : stepBody ts prov plan i st = .ok st') :
    ∃ rec, st'.actions = st.actions ++ [rec] ∧
      st'.invoked.length = st.invoked.length + 1 ∧ recordOk rec := by
  unfold stepBody at h
  repeat' split at h
  all_goals try cases h
  dsimp only at h
  split at h
  all_goals cases h
  · exact ⟨_, rfl, by simp [recordAction], recordOk_mk _ _ "passed" _ _ _ _ (Or.inl rfl)
      (fun hf => absurd hf (by decide))⟩
  · exact ⟨_, rfl, by simp [recordAction], recordOk_mk _ _ "failed" _ _ _ _ (Or.inr rfl)
      (fun _ => rfl)⟩

theorem runLoop_ok_inv (ts : List String) (prov : String → Option Json → MCPResult × Nat)
    (plan : Json) :
    ∀ (n i : Nat) (st st' : RunState),
      runLoop ts prov plan n i st = .ok st' →
      (∀ rec ∈ st.actions, recordOk rec) →
      st.invoked.length = st.actions.length →
      (∀ rec ∈ st'.actions, recordOk rec) ∧ st'.invoked.length = st'.actions.length ∧
        st'.actions.length = st.actions.length + n := by
  intro n
  induction n with
  | zero =>
    intro i st st' h h1 h2
    simp only [runLoop] at h
    cases h
    exact ⟨h1, h2, by simp⟩
  | succ n ih =>
    intro i st st' h h1 h2
    simp only [runLoop] at h
    cases hsb : stepBody ts prov plan i st with
    | error msg =>
      rw [hsb] at h
      simp at h
    | ok st1 =>
      rw [hsb] at h
      simp only at h
      obtain ⟨rec, ha, hi, hr⟩ := stepBody_ok hsb
      have h1' : ∀ r ∈ st1.actions, recordOk r := by
        intro r hrmem
        rw [ha] at hrmem
        rcases List.mem_append.mp hrmem with hl | hrr
        · exact h1 r hl
        · rw [List.mem_singleton.mp hrr]
          exact hr
      have hlen : st1.actions.length = st.actions.length + 1 := by
        rw [ha]
        simp
      have h2' : st1.invoked.length = st1.actions.length := by
        rw [hi, hlen, h2]
      obtain ⟨g1, g2, g3⟩ := ih (i + 1) st1 st' h h1' h2'
      refine ⟨g1, g2, ?_⟩
      rw [g3, hlen]
      omega

theorem runLoop_err_inv (ts : List String) (prov : String → Option Json → MCPResult × Nat)
    (plan : Json) :
    ∀ (n i : Nat) (st : RunState) (es : RunState × String),
      runLoop ts prov plan n i st = .error es →
      (∀ rec ∈ st.actions, recordOk rec) →
      st.invoked.length = st.actions.length →
      (∀ rec ∈ es.1.actions, recordOk rec) ∧ es.1.invoked.length = es.1.actions.length := by
  intro n
  induction n with
  | zero =>
    intro i st es h h1 h2
    simp [runLoop] at h
  | succ n ih =>
    intro i st es h h1 h2
    simp only [runLoop] at h
    cases hsb : stepBody ts prov plan i st with
    | error msg =>
      rw [hsb] at h
      simp only at h
      cases h
      exact ⟨h1, h2⟩
    | ok st1 =>
      rw [hsb] at h
      simp only at h
      obtain ⟨rec, ha, hi, hr⟩ := stepBody_ok hsb
      have h1' : ∀ r ∈ st1.actions, recordOk r := by
        intro r hrmem
        rw [ha] at hrmem
        rcases List.mem_append.mp hrmem with hl | hrr
        · exact h1 r hl
        · rw [List.mem_singleton.mp hrr]
          exact hr
      have h2' : st1.invoked.length = st1.actions.length := by
        rw [hi, ha, h2]
        simp
      exact ih (i + 1) st1 es h h1' h2'

theorem runResult_inv (name tt pt : String)
    (prov : String → Option Json → MCPResult × Nat) :
    (∀ rec ∈ actionsOf (runTest name tt pt prov), recordOk rec) ∧
      (invokedOf (runTest name tt pt prov)).length =
        (actionsOf (runTest name tt pt prov)).length := by
  unfold runTest
  cases hg : generateExecutionPlan pt with
  | error msg => simp [actionsOf, invokedOf]
  | ok plan =>
    unfold execPlan
    dsimp only
    cases hl : runLoop (stepsOf tt) prov plan (loopBound plan) 0 ⟨[], [], 0, 0⟩ with
    | error es =>
      obtain ⟨st', msg⟩ := es
      obtain ⟨g1, g2⟩ := runLoop_err_inv _ prov plan _ 0 _ _ hl (by simp) (by simp)
      simp only [actionsOf, invokedOf]
      exact ⟨g1, g2⟩
    | ok st =>
      obtain ⟨g1, g2, _⟩ := runLoop_ok_inv _ prov plan _ 0 _ st hl (by simp) (by simp)
      simp only [actionsOf, invokedOf, finalize]
      exact ⟨g1, g2⟩

theorem finished_rep (name tt pt : String) (prov : String → Option Json → MCPResult × Nat)
    (inv : List (String × Option Json)) (rep : TestReport)
    (h : runTest name tt pt prov = .finished inv rep) :
    ∃ st : RunState, rep = finalize name tt st := by
  unfold runTest at h
  cases hg : generateExecutionPlan pt with
  | error m =>
    rw [hg] at h
    simp at h
  | ok plan =>
    rw [hg] at h
    unfold execPlan at h
    dsimp only at h
    cases hl : runLoop (stepsOf tt) prov plan (loopBound plan) 0 ⟨[], [], 0, 0⟩ with
    | error es =>
      obtain ⟨st', msg⟩ := es
      rw [hl] at h
      simp at h
    | ok st =>
      rw [hl] at h
      simp only [RunResult.finished.injEq] at h
      exact ⟨st, h.2.symm⟩

theorem finalize_pass_iff (name tt : String) (st : RunState) :
    (finalize name tt st).testResult = "pass" ↔ (finalize name tt st).failedActions = 0 := by
  unfold finalize
  by_cases hf : st.failed = 0 <;> simp [hf]

theorem jsonEscapeChar_len (c : Char) : 1 ≤ (jsonEscapeChar c).length := by
  unfold jsonEscapeChar
  repeat' split
  all_goals simp

theorem jsonEscapeL_len (l : List Char) : l.length ≤ (jsonEscapeL l).length := by
  induction l with
  | nil => simp [jsonEscapeL]
  | cons c cs ih =>
    simp only [jsonEscapeL, List.flatMap_cons, List.length_append, List.length_cons]
    have := jsonEscapeChar_len c
    have : (jsonEscapeL cs).length = (cs.flatMap jsonEscapeChar).length := rfl
    omega

theorem stringify_single_len (ty t : String) :
    t.data.length ≤ (jsContentStringifyL [⟨ty, some t⟩]).length := by
  show t.data.length ≤
    ('[' :: List.intercalate ",".data [blockStringifyL ⟨ty, some t⟩] ++ [']']).length
  have hinter : List.intercalate ",".data [blockStringifyL ⟨ty, some t⟩] =
      blockStringifyL ⟨ty, some t⟩ := by
    simp [List.intercalate]
  rw [hinter]
  have h1 := jsonEscapeL_len t.data
  simp only [blockStringifyL, jsonQuoteL, List.length_cons, List.length_append]
  omega

theorem executeMCP_isError (content : List ContentBlock) (d : Nat) :
    executeMCP ⟨content, true⟩ d =
      .error ⟨"MCP Tool Error: " ++ jsContentStringify content, d⟩ := rfl

theorem errMsg_len (blocks : List ContentBlock) :
    ("MCP Tool Error: " ++ jsContentStringify blocks).length =
      16 + (jsContentStringifyL blocks).length := by
  have hd : ("MCP Tool Error: " ++ jsContentStringify blocks).data =
      "MCP Tool Error: ".data ++ jsContentStringifyL blocks := by
    rw [String.data_append]
    rfl
  have h2 : ("MCP Tool Error: " ++ jsContentStringify blocks).length =
      ("MCP Tool Error: " ++ jsContentStringify blocks).data.length := rfl
  rw [h2, hd, List.length_append]
  rfl

theorem errMsg_ne_empty (blocks : List ContentBlock) :
    ("MCP Tool Error: " ++ jsContentStringify blocks) ≠ "" := by
  intro h
  have h0 : ("MCP Tool Error: " ++ jsContentStringify blocks).length = 0 := by
    rw [h]
    rfl
  rw [errMsg_len] at h0
  omega

theorem jsStrOrNull_some_of_ne (s : String) (h : s ≠ "") :
    jsStrOrNull (some s) = some s := by
  simp [jsStrOrNull, h]

theorem stepBody_genStep (tool : String) (params : Json)
    (prov : String → Option Json → MCPResult × Nat) (st : RunState) :
    stepBody ["- click the button"] prov
        (Json.arr [Json.obj [("stepIndex", Json.num 1 0), ("tool", Json.str tool),
          ("params", params), ("isAssertion", Json.bool false)]]) 0 st =
      match executeMCP (prov (stripMcp tool) (some params)).1
              (prov (stripMcp tool) (some params)).2 with
      | .ok _ =>
        .ok (recordAction
              { st with invoked := st.invoked ++ [(stripMcp tool, some params)] }
              ("mcp_" ++ tool) (some params) "passed" (some (Json.bool false))
              none (prov (stripMcp tool) (some params)).2
              (extractScreenshotPath (prov (stripMcp tool) (some params)).1))
      | .error e =>
        .ok (recordAction
              { st with invoked := st.invoked ++ [(stripMcp tool, some params)] }
              ("mcp_" ++ tool) (some params) "failed" (some (Json.bool false))
              (some e.msg) e.duration none) := rfl

/-- C1 counterexample: a plan step whose tool name is absent from the
discovered catalog passes plan validation and is executed (the provider
is invoked and an ActionRecord is produced) instead of being rejected
before execution. -/
theorem unknownToolNotValidated :
    exampleCatalog.contains "bogus_tool" = false ∧
    runTest "t" testTextA planTextBogus providerOkPlain =
      .finished [("bogus_tool", some (Json.obj []))]
        ⟨"t", testTextA,
          [⟨"mcp_bogus_tool", some (Json.obj []), "passed", none, none, 3, none⟩],
          1, 0, 1, "pass"⟩ :=
  ⟨rfl, rfl⟩

/-- C1 (amended): plan validation never consults the tool catalog; for
any catalog not containing the tool of the step, the step is still executed
against the provider (one invocation, one record), not rejected or
dropped. -/
theorem unknownToolStillInvoked (catalog : List String) (tool : String) (params : Json)
    (prov : String → Option Json → MCPResult × Nat)
    (_hcat : catalog.contains tool = false) :
    ∃ rep, execPlan "t" testTextA prov
        (Json.arr [Json.obj [("stepIndex", Json.num 1 0), ("tool", Json.str tool),
          ("params", params), ("isAssertion", Json.bool false)]]) =
      .finished [(stripMcp tool, some params)] rep ∧ rep.totalActions = 1 := by
  rw [execPlan_one _ _ _ _ (rfl :
    loopBound (Json.arr [Json.obj [("stepIndex", Json.num 1 0), ("tool", Json.str tool),
      ("params", params), ("isAssertion", Json.bool false)]]) = 1)]
  rw [show stepsOf testTextA = ["- click the button"] from rfl]
  rw [stepBody_genStep]
  cases hx : executeMCP (prov (stripMcp tool) (some params)).1
      (prov (stripMcp tool) (some params)).2 with
  | ok u => exact ⟨_, rfl, rfl⟩
  | error e => exact ⟨_, rfl, rfl⟩

/-- C1 witness: instantiation at the concrete catalog and the unknown
tool `bogus_tool`. -/
theorem unknownToolStillInvokedWitness :
    exampleCatalog.contains "bogus_tool" = false ∧
    ∃ rep, execPlan "t" testTextA providerOkPlain
        (Json.arr [Json.obj [("stepIndex", Json.num 1 0), ("tool", Json.str "bogus_tool"),
          ("params", Json.obj []), ("isAssertion", Json.bool false)]]) =
      .finished [(stripMcp "bogus_tool", some (Json.obj []))] rep ∧ rep.totalActions = 1 :=
  ⟨rfl, unknownToolStillInvoked exampleCatalog "bogus_tool" (Json.obj []) providerOkPlain rfl⟩

/-- C2 counterexample: a response with `isError = false` whose SECOND
text block carries `### Result` + newline + `false` — the concatenation
of all text blocks contains the false marker, yet the step is classified
passed, because only the first text block is inspected. -/
theorem secondBlockMarkerIgnored :
    specConcatMarkerFalse [⟨"text", some "hello"⟩, ⟨"text", some "### Result\nfalse"⟩] = true ∧
    runTest "t" testTextA planTextSingle providerDual =
      .finished [("browser_click", some (Json.obj []))]
        ⟨"t", testTextA,
          [⟨"mcp_browser_click", some (Json.obj []), "passed", none, none, 4, none⟩],
          1, 0, 1, "pass"⟩ :=
  ⟨rfl, rfl⟩

/-- C2 (amended): for a response with `isError = false`, the executed
step is recorded failed if and only if the FIRST text-typed content
block carries a non-empty text whose first `### Result` marker value
is, case-insensitively, `false`; in particular a first block containing
`### Result` + newline + `false` is recorded failed. -/
theorem firstBlockMarkerDecides (content : List ContentBlock) (d : Nat) :
    (actionsOf (runTest "t" testTextA planTextSingle
        (fun _ _ => (⟨content, false⟩, d)))).map (fun a => a.status) =
      [if firstBlockMarkerFalse content then "failed" else "passed"] ∧
    (actionsOf (runTest "t" testTextA planTextSingle
        (fun _ _ => (⟨[⟨"text", some "### Result\nfalse"⟩], false⟩, 9)))).map
          (fun a => a.status) = ["failed"] := by
  constructor
  · rw [runSingle_eq]
    dsimp only
    rw [executeMCP_not_isError]
    by_cases hm : firstBlockMarkerFalse content <;> simp [hm, actionsOf]
  · rfl

/-- C3: a response with `isError = true` is always recorded as one
failed action whose error message is built from the stringified raw
payload, whatever the text content says; in particular this holds when
the text contains `### Result true`. -/
theorem protocolErrorPrecedence (blocks : List ContentBlock) (d : Nat) :
    runTest "t" testTextA planTextSingle (fun _ _ => (⟨blocks, true⟩, d)) =
      .finished [("browser_click", some (Json.obj []))]
        ⟨"t", testTextA,
          [⟨"mcp_browser_click", some (Json.obj []), "failed", none,
            some ("MCP Tool Error: " ++ jsContentStringify blocks), d, none⟩],
          0, 1, 1, "fail"⟩ ∧
    runTest "t" testTextA planTextSingle providerErrTrue =
      .finished [("browser_click", some (Json.obj []))]
        ⟨"t", testTextA,
          [⟨"mcp_browser_click", some (Json.obj []), "failed", none,
            some "MCP Tool Error: [\x7b\"type\":\"text\",\"text\":\"### Result true\"\x7d]",
            7, none⟩],
          0, 1, 1, "fail"⟩ := by
  constructor
  · rw [runSingle_eq]
    dsimp only
    rw [executeMCP_isError]
    dsimp only
    rw [jsStrOrNull_some_of_ne _ (errMsg_ne_empty blocks)]
  · rfl

/-- C4 (code bug): a two-step plan against a one-line test text, the
second step without a resolvable step index, crashes the run with an
uncaught TypeError after one action: only 1 of the 2 ActionRecords is
produced and no report is finalized, contradicting the sentence of the spec
"mismatch is logged, not fatal". -/
theorem planLongerThanStepsCrashes :
    runTest "t" testTextA planTextMismatch providerOkPlain =
      .crashed [("browser_click", some (Json.obj []))]
        [⟨"mcp_browser_click", some (Json.obj []), "passed", none, none, 3, none⟩] := rfl

/-- C5: every finalized run satisfies `testResult = pass` iff
`failedActions = 0`. -/
theorem passIffNoFailures (name tt pt : String)
    (prov : String → Option Json → MCPResult × Nat)
    (inv : List (String × Option Json)) (rep : TestReport)
    (h : runTest name tt pt prov = .finished inv rep) :
    rep.testResult = "pass" ↔ rep.failedActions = 0 := by
  obtain ⟨st, hrep⟩ := finished_rep name tt pt prov inv rep h
  rw [hrep]
  exact finalize_pass_iff name tt st

/-- C5 witness: a zero-action run (empty plan) finalizes with
`testResult = pass` and `failedActions = 0`. -/
theorem passIffNoFailuresWitness :
    runTest "t" testTextA "[]" providerOkPlain =
      .finished [] ⟨"t", testTextA, [], 0, 0, 0, "pass"⟩ ∧
    ((⟨"t", testTextA, [], 0, 0, 0, "pass"⟩ : TestReport).testResult = "pass" ↔
      (⟨"t", testTextA, [], 0, 0, 0, "pass"⟩ : TestReport).failedActions = 0) :=
  ⟨rfl, passIffNoFailures "t" testTextA "[]" providerOkPlain [] _ rfl⟩

/-- C6: screenshot extraction returns nothing on empty content; on text
mentioning `shot1.png` then `shot2.jpg` it returns the path built from
`shot2.jpg`; in general it returns nothing exactly when the scan finds
no filename token, and otherwise the screenshots-directory path of the
basename of the LAST match. -/
theorem screenshotLastMatchPolicy :
    extractScreenshotPath ⟨[], false⟩ = none ∧
    extractScreenshotPath
        ⟨[⟨"text", some "Saved shot1.png"⟩, ⟨"text", some "then shot2.jpg ok"⟩], false⟩ =
      some "mcp-workspace/test-screenshots/shot2.jpg" ∧
    (∀ r : MCPResult, scanAll (fullTextOf r.content).data = [] →
      extractScreenshotPath r = none) ∧
    (∀ (r : MCPResult) (ms : List (List Char)) (m : List Char),
      scanAll (fullTextOf r.content).data = ms ++ [m] →
      extractScreenshotPath r = some (screenshotsDir ++ "/" ++ jsBasename (String.mk m))) := by
  refine ⟨rfl, rfl, ?_, ?_⟩
  · intro r h
    unfold extractScreenshotPath
    by_cases hft : fullTextOf r.content = ""
    · simp [hft]
    · simp [hft, h]
  · intro r ms m h
    unfold extractScreenshotPath
    by_cases hft : fullTextOf r.content = ""
    · exfalso
      rw [hft] at h
      have h0 : ([] : List (List Char)) = ms ++ [m] := h
      simp at h0
    · rw [if_neg hft, h, List.getLast?_concat]

/-- C6 witness: the last-match clause applied to the concrete two-file
content. -/
theorem screenshotLastMatchPolicyWitness :
    extractScreenshotPath
        ⟨[⟨"text", some "Saved shot1.png"⟩, ⟨"text", some "then shot2.jpg ok"⟩], false⟩ =
      some (screenshotsDir ++ "/" ++ jsBasename (String.mk "shot2.jpg".data)) :=
  screenshotLastMatchPolicy.2.2.2
    ⟨[⟨"text", some "Saved shot1.png"⟩, ⟨"text", some "then shot2.jpg ok"⟩], false⟩
    ["shot1.png".data] "shot2.jpg".data rfl

/-- C7 (amended): a plan text that fails `JSON.parse` after fence
stripping (or parses to `null`, whose `length` access throws inside the
same try block) aborts the run with a plan error before any action:
no record and no invocation exists. -/
theorem invalidJsonAbortsRun (name tt pt : String)
    (prov : String → Option Json → MCPResult × Nat)
    (h : parseJsonText (stripPlanFences pt) = none ∨
      parseJsonText (stripPlanFences pt) = some Json.null) :
    ∃ msg, runTest name tt pt prov = .planError msg ∧
      actionsOf (RunResult.planError msg) = [] ∧
      invokedOf (RunResult.planError msg) = [] := by
  unfold runTest generateExecutionPlan
  rcases h with h | h <;> rw [h] <;> exact ⟨_, rfl, rfl, rfl⟩

/-- C7 witness: a syntactically invalid plan text aborts the run. -/
theorem invalidJsonAbortsRunWitness :
    ∃ msg, runTest "t" testTextA "not json" providerOkPlain = .planError msg ∧
      actionsOf (RunResult.planError msg) = [] ∧
      invokedOf (RunResult.planError msg) = [] :=
  invalidJsonAbortsRun "t" testTextA "not json" providerOkPlain (Or.inl rfl)

/-- C7 counterexample: plan text `\x7b\x7d` is valid JSON but not the
expected array shape, yet the run is NOT aborted: it finalizes a
zero-action passing report. -/
theorem nonArrayPlanNotRejected :
    parseJsonText (stripPlanFences planTextObj) = some (Json.obj []) ∧
    runTest "t" testTextA planTextObj providerOkPlain =
      .finished [] ⟨"t", testTextA, [], 0, 0, 0, "pass"⟩ :=
  ⟨rfl, rfl⟩

/-- C8 counterexample: a 600-character error payload is embedded WHOLE
into the thrown error message (the message is exactly the fixed prefix
plus the full stringified payload, of length above 600), so the payload
is not truncated to a bounded excerpt. -/
theorem errorMessageUnbounded :
    executeMCP ⟨bigBlocks, true⟩ 0 =
      .error ⟨"MCP Tool Error: " ++ jsContentStringify bigBlocks, 0⟩ ∧
    600 < ("MCP Tool Error: " ++ jsContentStringify bigBlocks).length := by
  refine ⟨rfl, ?_⟩
  rw [errMsg_len]
  have h1 := stringify_single_len "text" (String.mk (List.replicate 600 'a'))
  have h2 : (String.mk (List.replicate 600 'a')).data.length = 600 := by
    show (List.replicate 600 'a').length = 600
    exact List.length_replicate _ _
  have hb : jsContentStringifyL bigBlocks =
      jsContentStringifyL [⟨"text", some (String.mk (List.replicate 600 'a'))⟩] := rfl
  rw [hb]
  omega

/-- C8 (amended): the error message of a protocol-error step embeds the
FULL JSON serialization of the raw payload after the fixed prefix — no
truncation — and the failed ActionRecord carries exactly that
message. -/
theorem errorPayloadEmbeddedInFull (blocks : List ContentBlock) (d : Nat) :
    executeMCP ⟨blocks, true⟩ d =
      .error ⟨"MCP Tool Error: " ++ jsContentStringify blocks, d⟩ ∧
    (actionsOf (runTest "t" testTextA planTextSingle
        (fun _ _ => (⟨blocks, true⟩, d)))).map (fun a => a.error) =
      [some ("MCP Tool Error: " ++ jsContentStringify blocks)] := by
  refine ⟨rfl, ?_⟩
  rw [runSingle_eq]
  dsimp only
  rw [executeMCP_isError]
  dsimp only [actionsOf]
  rw [jsStrOrNull_some_of_ne _ (errMsg_ne_empty blocks)]
  rfl

/-- C9 counterexample: the record of a step whose plan `isAssertion` is
the JSON boolean `false` stores `assertion = null` (here `none`), not a
boolean — `assertion || null` coerces `false` to `null`. -/
theorem falseAssertionStoredAsNull :
    parseJsonText (stripPlanFences planTextSingle) = some (Json.arr [planStep1]) ∧
    jsField planStep1 "isAssertion" = some (Json.bool false) ∧
    actionsOf (runTest "t" testTextA planTextSingle providerOkPlain) = [recPassedPlain] ∧
    recPassedPlain.assertion = none :=
  ⟨rfl, rfl, rfl, rfl⟩

/-- C9 (amended): every record any run creates has status exactly
`passed` or `failed`, an `assertion` field that is either `null` or the
truthy `isAssertion` value of the step (boolean `false` is stored as null),
a non-empty error string when present, a non-empty screenshot path when
present; and exactly one record exists per provider invocation. -/
theorem actionRecordShape (name tt pt : String)
    (prov : String → Option Json → MCPResult × Nat) :
    (∀ rec ∈ actionsOf (runTest name tt pt prov),
      (rec.status = "passed" ∨ rec.status = "failed") ∧
      (rec.assertion = none ∨ jsTruthy rec.assertion = true) ∧
      (∀ e, rec.error = some e → e ≠ "") ∧
      (∀ p, rec.screenshot = some p → p ≠ "")) ∧
    (invokedOf (runTest name tt pt prov)).length =
      (actionsOf (runTest name tt pt prov)).length := by
  obtain ⟨h1, h2⟩ := runResult_inv name tt pt prov
  refine ⟨?_, h2⟩
  intro rec hmem
  obtain ⟨a, _, c, d, e⟩ := h1 rec hmem
  exact ⟨a, c, d, e⟩

/-- C9 witness: the shape clauses applied to the concrete record of a
one-step passing run, and the one-invocation-one-record count for that
run. -/
theorem actionRecordShapeWitness :
    ((recPassedPlain.status = "passed" ∨ recPassedPlain.status = "failed") ∧
      (recPassedPlain.assertion = none ∨ jsTruthy recPassedPlain.assertion = true) ∧
      (∀ e, recPassedPlain.error = some e → e ≠ "") ∧
      (∀ p, recPassedPlain.screenshot = some p → p ≠ "")) ∧
    (invokedOf (runTest "t" testTextA planTextSingle providerOkPlain)).length =
      (actionsOf (runTest "t" testTextA planTextSingle providerOkPlain)).length :=
  ⟨(actionRecordShape "t" testTextA planTextSingle providerOkPlain).1 recPassedPlain
      (by rw [show actionsOf (runTest "t" testTextA planTextSingle providerOkPlain) =
        [recPassedPlain] from rfl]; exact List.mem_singleton.mpr rfl),
    (actionRecordShape "t" testTextA planTextSingle providerOkPlain).2⟩

/-- C10: every failed record of every run carries no screenshot path —
screenshot correlation happens only on the passed branch. -/
theorem failedRecordNoScreenshot (name tt pt : String)
    (prov : String → Option Json → MCPResult × Nat) (rec : ActionRecord)
    (hmem : rec ∈ actionsOf (runTest name tt pt prov))
    (hfail : rec.status = "failed") : rec.screenshot = none :=
  ((runResult_inv name tt pt prov).1 rec hmem).2.1 hfail

/-- C10 witness: a failed step whose error text mentions `shot1.png`
still records no screenshot. -/
theorem failedRecordNoScreenshotWitness : recFailedShot.screenshot = none :=
  failedRecordNoScreenshot "t" testTextA planTextSingle providerShotFail recFailedShot
    (by rw [show actionsOf (runTest "t" testTextA planTextSingle providerShotFail) =
      [recFailedShot] from rfl]; exact List.mem_singleton.mpr rfl) rfl
